import Mathlib

/-!
Shallow embedding of the scheduled-post dispatch engine of `src/posts.js`
(an Express router over a SQLite `posts` table, plus a 10-second cron scan
and a WebSocket broadcaster), together with proofs of the spec's claims.

The `posts` table (src/posts.js lines 39-49) is modelled as a `List Post`;
each SQL statement of the source is translated into a pure function on that
list.  SQLite's binary TEXT collation (used by `scheduledAt <= ?`) is
modelled by lexicographic comparison of character lists, which agrees with
`memcmp` on the ASCII ISO-8601 timestamps the application stores.
-/

namespace Apgram

/-- One row of the `posts` table (src/posts.js lines 39-49):
`id INTEGER PRIMARY KEY AUTOINCREMENT, user_id INTEGER, title TEXT NOT NULL,
description TEXT, url TEXT, scheduledAt TEXT, sent INTEGER DEFAULT 0`.
Nullable TEXT columns are `Option String`. -/
structure Post where
  id : Nat
  user_id : Nat
  title : String
  description : Option String
  url : Option String
  scheduledAt : Option String
  sent : Nat
deriving DecidableEq, Repr

/-- Lexicographic order on character lists: SQLite's binary collation for
TEXT comparison, restricted to the ASCII strings the application stores. -/
def charsLE : List Char → List Char → Bool
  | [], _ => true
  | _ :: _, [] => false
  | a :: as, b :: bs => if a < b then true else if b < a then false else charsLE as bs

/-- String comparison `s <= t` as SQLite evaluates `scheduledAt <= ?`. -/
def strLE (s t : String) : Bool := charsLE s.data t.data

/-- The WHERE clause of the cron scan's candidate query (src/posts.js line 472):
`sent = 0 AND scheduledAt IS NOT NULL AND scheduledAt <= ?` (bound to `now`). -/
def isDueCandidate (now : String) (p : Post) : Bool :=
  p.sent == 0 &&
    match p.scheduledAt with
    | some t => strLE t now
    | none => false

/-- The cron scan's candidate query (src/posts.js lines 471-474):
`SELECT * FROM posts WHERE sent = 0 AND scheduledAt IS NOT NULL AND
scheduledAt <= ?`. -/
def claimDueCandidates (now : String) (store : List Post) : List Post :=
  store.filter (isDueCandidate now)

/-- Result of the terminal deletion: `ok` when a row was removed,
`alreadyGone` when no row with that id existed (the DELETE matched nothing). -/
inductive MarkResult where
  | ok
  | alreadyGone
deriving DecidableEq, Repr

/-- `DELETE FROM posts WHERE id = ?` as run after a successful delivery
(src/posts.js lines 406 and 512).  SQLite's DELETE of an absent row is a
no-op; the result distinguishes whether a row was actually removed. -/
def markDelivered (store : List Post) (id : Nat) : List Post × MarkResult :=
  (store.filter (fun p => p.id != id),
   if store.any (fun p => p.id == id) then .ok else .alreadyGone)

/-- `router.post "/"` (src/posts.js lines 146-167): `INSERT INTO posts
(user_id, title, description, url, scheduledAt) VALUES (?, ?, ?, ?, NULL)`.
The route performs no validation of `title`; an absent (`NULL`) title is
rejected only by the table's NOT NULL constraint, which surfaces as a
thrown error (HTTP 500).  `sent` takes its column default 0. -/
def createPost (store : List Post) (nextId uId : Nat) (title : Option String)
    (description url : Option String) : Except String (List Post × Nat) :=
  match title with
  | none => .error "NOT NULL constraint failed: posts.title"
  | some t =>
      .ok (store ++ [{ id := nextId, user_id := uId, title := t,
                       description := description, url := url,
                       scheduledAt := none, sent := 0 }], nextId)

/-- `router.put "/:id"` (src/posts.js lines 238-270): `UPDATE posts SET
title = ?, description = ?, url = ?, scheduledAt = ? WHERE id = ?` with
values `title ?? post.title`, `description ?? post.description`,
`url === undefined ? post.url : url`, `scheduledAt ?? post.scheduledAt`.
A request field of `Option String` is `none` when the JSON field is omitted
or null (JS `??` treats both alike); `url` is `Option (Option String)`
because the source distinguishes `undefined` (keep) from `null` (clear).
A missing id leaves the store unchanged (the route returns 404 first). -/
def applyUpdate (title : Option String) (description : Option String)
    (url : Option (Option String)) (scheduledAt : Option String)
    (p : Post) : Post :=
  { p with
    title := match title with | some t => t | none => p.title
    description := match description with | some d => some d | none => p.description
    url := match url with | some u => u | none => p.url
    scheduledAt := match scheduledAt with | some s => some s | none => p.scheduledAt }

/-- The UPDATE statement of `router.put "/:id"`, applied to the store. -/
def updatePost (store : List Post) (id : Nat) (title : Option String)
    (description : Option String) (url : Option (Option String))
    (scheduledAt : Option String) : List Post :=
  store.map fun p =>
    if p.id == id then applyUpdate title description url scheduledAt p else p

/-- `router.post "/schedulePost/:id"` (src/posts.js lines 321-340):
`UPDATE posts SET scheduledAt = ?, sent = 0 WHERE id = ?`. -/
def schedulePost (store : List Post) (id : Nat) (sched : Option String) : List Post :=
  store.map fun p =>
    if p.id == id then { p with scheduledAt := sched, sent := 0 } else p

/-- `router.delete "/schedulePost/:id"` (src/posts.js lines 342-357):
`UPDATE posts SET scheduledAt = NULL WHERE id = ?`. -/
def cancelSchedule (store : List Post) (id : Nat) : List Post :=
  store.map fun p =>
    if p.id == id then { p with scheduledAt := none } else p

/-- `router.delete "/:id"` (src/posts.js lines 273-294):
`DELETE FROM posts WHERE id = ?`. -/
def deletePost (store : List Post) (id : Nat) : List Post :=
  store.filter (fun p => p.id != id)

/-- `router.delete "/:id/image"` (src/posts.js lines 297-318):
`UPDATE posts SET url = NULL WHERE id = ?`. -/
def deleteImage (store : List Post) (id : Nat) : List Post :=
  store.map fun p =>
    if p.id == id then { p with url := none } else p

/-- ASCII digit test, as SQLite's date parser classifies characters. -/
def isDigitCh (c : Char) : Bool := decide ('0' ≤ c) && decide (c ≤ '9')

/-- Numeric value of an ASCII digit. -/
def digitVal (c : Char) : Nat := c.toNat - 48

/-- Proleptic Gregorian leap year, the calendar SQLite's julian-day
arithmetic realizes. -/
def isLeap (y : Nat) : Bool :=
  (y % 4 == 0) && (y % 100 != 0 || y % 400 == 0)

/-- Length of a month in the proleptic Gregorian calendar. -/
def daysInMonth (y m : Nat) : Nat :=
  if m == 2 then (if isLeap y then 29 else 28)
  else if m == 4 || m == 6 || m == 9 || m == 11 then 30
  else 31

/-- After the seconds' fractional digits: more digits, optionally ending in
the zulu suffix `Z`. -/
def fracZTail : List Char → Bool
  | [] => true
  | ['Z'] => true
  | c :: rest => isDigitCh c && fracZTail rest

/-- A fractional-seconds part: at least one digit, then `fracZTail`.
SQLite parses it and `datetime()` then discards it (truncation to whole
seconds). -/
def fracOk : List Char → Bool
  | c :: rest => isDigitCh c && fracZTail rest
  | [] => false

/-- Validate an `HH:MM:SS` triple and render it in `datetime()`'s output
form. -/
def mkTime (h1 h2 n1 n2 s1 s2 : Char) : Option (List Char) :=
  if isDigitCh h1 && isDigitCh h2 && isDigitCh n1 && isDigitCh n2 &&
      isDigitCh s1 && isDigitCh s2 then
    if 10 * digitVal h1 + digitVal h2 ≤ 23 &&
        10 * digitVal n1 + digitVal n2 ≤ 59 &&
        10 * digitVal s1 + digitVal s2 ≤ 59 then
      some [h1, h2, ':', n1, n2, ':', s1, s2]
    else none
  else none

/-- The time-of-day part of an ISO-8601 UTC timestamp as SQLite accepts it:
`HH:MM`, `HH:MM:SS`, optional fractional seconds, optional `Z`; seconds
default to `00` and fractions are truncated in `datetime()`'s output. -/
def timePart : List Char → Option (List Char)
  | [h1, h2, ':', n1, n2] => mkTime h1 h2 n1 n2 '0' '0'
  | [h1, h2, ':', n1, n2, 'Z'] => mkTime h1 h2 n1 n2 '0' '0'
  | h1 :: h2 :: ':' :: n1 :: n2 :: ':' :: s1 :: s2 :: rest =>
      match rest with
      | [] => mkTime h1 h2 n1 n2 s1 s2
      | ['Z'] => mkTime h1 h2 n1 n2 s1 s2
      | '.' :: fr => if fracOk fr then mkTime h1 h2 n1 n2 s1 s2 else none
      | _ => none
  | _ => none

/-- `datetime(value)` for the UTC ISO-8601 timestamps this application
stores: `YYYY-MM-DD` optionally followed by `T` or space and a `timePart`.
The calendar fields are validated (so the julian-day round trip is the
identity), the zulu suffix denotes a zero offset, and the result is the
canonical `YYYY-MM-DD HH:MM:SS` — sub-second precision is TRUNCATED, so
schedules within the same second compare equal.  Strings outside this
grammar get no key (modelling `datetime()` returning NULL; local-offset
forms and non-ISO inputs are outside the scope of this model). -/
def dtChars : List Char → Option (List Char)
  | y1 :: y2 :: y3 :: y4 :: '-' :: m1 :: m2 :: '-' :: d1 :: d2 :: rest =>
      if isDigitCh y1 && isDigitCh y2 && isDigitCh y3 && isDigitCh y4 &&
          isDigitCh m1 && isDigitCh m2 && isDigitCh d1 && isDigitCh d2 then
        if 1 ≤ 10 * digitVal m1 + digitVal m2 &&
            10 * digitVal m1 + digitVal m2 ≤ 12 &&
            1 ≤ 10 * digitVal d1 + digitVal d2 &&
            10 * digitVal d1 + digitVal d2 ≤
              daysInMonth
                (1000 * digitVal y1 + 100 * digitVal y2 +
                  10 * digitVal y3 + digitVal y4)
                (10 * digitVal m1 + digitVal m2) then
          match rest with
          | [] => some ([y1, y2, y3, y4, '-', m1, m2, '-', d1, d2] ++
              ' ' :: ['0', '0', ':', '0', '0', ':', '0', '0'])
          | sep :: t =>
              if sep == 'T' || sep == ' ' then
                match timePart t with
                | some tp =>
                    some ([y1, y2, y3, y4, '-', m1, m2, '-', d1, d2] ++ ' ' :: tp)
                | none => none
              else none
        else none
      else none
  | _ => none

/-- The sort key `datetime(scheduledAt)` of the ORDER BY clause, on the
stored string. -/
def dtKey (s : String) : Option String :=
  (dtChars s.data).map fun l => String.mk l

/-- The ORDER BY comparator of `router.get "/user/:userId"` (src/posts.js
lines 204-215): `CASE WHEN scheduledAt IS NULL THEN 1 ELSE 0 END,
datetime(scheduledAt) ASC, id DESC`.  Scheduled rows come first; among
them the key is `datetime(scheduledAt)` — second-granular, so same-second
schedules tie — with SQL NULL keys (unparseable strings) first in ASC;
every remaining tie, including the whole unscheduled group, falls to
`id DESC`. -/
def postLE (a b : Post) : Bool :=
  match a.scheduledAt, b.scheduledAt with
  | some _, none => true
  | none, some _ => false
  | some s, some t =>
      match dtKey s, dtKey t with
      | none, none => b.id ≤ a.id
      | none, some _ => true
      | some _, none => false
      | some ks, some kt =>
          if strLE ks kt && !(strLE kt ks) then true
          else if strLE kt ks && !(strLE ks kt) then false
          else b.id ≤ a.id
  | none, none => b.id ≤ a.id

/-- `postLE` as a decidable relation, for sorting. -/
def postOrder (a b : Post) : Prop := postLE a b = true

instance : DecidableRel postOrder := fun a b => instDecidableEqBool (postLE a b) true

/-- `router.get "/user/:userId"` (src/posts.js lines 188-221): `SELECT *
FROM posts WHERE user_id = ? ORDER BY ...` — the owner's rows, sorted by
the comparator `postLE` (any correct sorting algorithm models SQL ORDER BY;
a structurally recursive one is used so results compute). -/
def listByOwner (owner : Nat) (store : List Post) : List Post :=
  (store.filter (fun p => p.user_id == owner)).insertionSort postOrder

/-- Result of one cron tick: the surviving store, the number of Delivery
Gateway calls made, and the number of `posts_updated` broadcasts. -/
structure TickResult where
  store : List Post
  gatewayCalls : Nat
  events : Nat
deriving DecidableEq, Repr

/-- The body of the cron scan's `for (const post of posts)` loop
(src/posts.js lines 476-516), for one candidate `p`, on the accumulator
(live store, gateway calls so far).  `users u` tells whether the owner row
exists in `users.db` (`if (!user) continue`); `outcome i` tells whether the
gateway send for post id `i` succeeds.  On success the loop runs
`DELETE FROM posts WHERE id = ?`; on failure the catch block logs and the
loop continues. -/
def processPost (users outcome : Nat → Bool) (acc : List Post × Nat)
    (p : Post) : List Post × Nat :=
  if users p.user_id then
    if outcome p.id then
      (acc.1.filter (fun q => q.id != p.id), acc.2 + 1)
    else
      (acc.1, acc.2 + 1)
  else acc

/-- One tick of `cron.schedule "*/10 * * * * *"` (src/posts.js lines
468-522): snapshot the due candidates, process each sequentially, and
`if (posts.length) broadcast({type: "posts_updated"})` once at the end. -/
def scanTick (users outcome : Nat → Bool) (now : String)
    (store : List Post) : TickResult :=
  let cands := claimDueCandidates now store
  let r := cands.foldl (processPost users outcome) (store, 0)
  { store := r.1, gatewayCalls := r.2,
    events := if cands.isEmpty then 0 else 1 }

/-!
Race model for the periodic scan versus the manual `/sendPost/:id` route,
both targeting one post id.  Each awaited store or gateway operation of the
source is one atomic action; the intervening JavaScript runs between awaits
and may interleave with the other path.

Scan path for the targeted post (src/posts.js lines 468-522):
read the candidate snapshot, send via the gateway, delete the row.
Manual path (src/posts.js lines 360-412):
`db.get` the post (404 if absent), send via the gateway, delete the row.
Neither path re-checks existence between its read and its send.
-/

/-- The six atomic actions of the two racing paths. -/
inductive Act where
  | scanRead
  | scanSend
  | scanFinish
  | manRead
  | manSend
  | manFinish
deriving DecidableEq, Repr

/-- Shared-plus-local state of the race: the posts store, the count of
successful gateway calls for the targeted post, and each path's local
knowledge of whether its read found the post. -/
structure RaceState where
  store : List Post
  calls : Nat
  scanSaw : Bool
  manSaw : Bool
deriving DecidableEq, Repr

/-- One atomic action of either path, for target post id `pid` at scan time
`now`.  `userOk` is the owner lookup in `users.db` (the manual path returns
400 and the scan skips the post when it fails).  Sends are modelled as
succeeding, matching the claim's "successful call"; each path deletes the
row only after its own read found the post (src/posts.js lines 406, 512). -/
def raceStep (now : String) (pid : Nat) (userOk : Bool) (s : RaceState) :
    Act → RaceState
  | .scanRead =>
      { s with scanSaw := (claimDueCandidates now s.store).any (fun p => p.id == pid) }
  | .scanSend =>
      if s.scanSaw && userOk then { s with calls := s.calls + 1 } else s
  | .scanFinish =>
      if s.scanSaw && userOk then
        { s with store := s.store.filter (fun p => p.id != pid) }
      else s
  | .manRead =>
      { s with manSaw := s.store.any (fun p => p.id == pid) }
  | .manSend =>
      if s.manSaw && userOk then { s with calls := s.calls + 1 } else s
  | .manFinish =>
      if s.manSaw && userOk then
        { s with store := s.store.filter (fun p => p.id != pid) }
      else s

/-- Run a list of atomic actions from a state. -/
def runActs (now : String) (pid : Nat) (userOk : Bool) :
    List Act → RaceState → RaceState
  | [], s => s
  | a :: as, s => runActs now pid userOk as (raceStep now pid userOk s a)

/-- The scan path's program, in source order. -/
def scanProg : List Act := [.scanRead, .scanSend, .scanFinish]

/-- The manual `/sendPost/:id` path's program, in source order. -/
def manProg : List Act := [.manRead, .manSend, .manFinish]

/-- Whether an action belongs to the scan path. -/
def isScanAct : Act → Bool
  | .scanRead | .scanSend | .scanFinish => true
  | .manRead | .manSend | .manFinish => false

/-- Whether an action belongs to the manual path. -/
def isManAct (a : Act) : Bool := !isScanAct a

/-- An interleaved execution of the two paths: any action list whose
scan-subsequence is exactly `scanProg` and whose manual-subsequence is
exactly `manProg`, in their program order. -/
def IsInterleaving (l : List Act) : Prop :=
  l.filter isScanAct = scanProg ∧ l.filter isManAct = manProg

/-- The initial race state over a store: no calls made, neither path has
read yet. -/
def raceInit (store : List Post) : RaceState :=
  { store := store, calls := 0, scanSaw := false, manSaw := false }

/-! ### Order theory of the comparators -/

theorem charsLE_refl (a : List Char) : charsLE a a = true := by
  induction a with
  | nil => rfl
  | cons x xs ih => simp [charsLE, ih]

theorem charsLE_total (a b : List Char) :
    charsLE a b = true ∨ charsLE b a = true := by
  induction a generalizing b with
  | nil => left; rfl
  | cons x xs ih =>
    cases b with
    | nil => right; rfl
    | cons y ys =>
      rcases lt_trichotomy x y with h | h | h
      · left; simp [charsLE, h]
      · subst h
        rcases ih ys with h' | h'
        · left; simp [charsLE, lt_irrefl, h']
        · right; simp [charsLE, lt_irrefl, h']
      · right; simp [charsLE, h]

theorem charsLE_trans {a b c : List Char} (h1 : charsLE a b = true)
    (h2 : charsLE b c = true) : charsLE a c = true := by
  induction a generalizing b c with
  | nil => rfl
  | cons x xs ih =>
    cases b with
    | nil => simp [charsLE] at h1
    | cons y ys =>
      cases c with
      | nil => simp [charsLE] at h2
      | cons z zs =>
        simp only [charsLE] at h1 h2 ⊢
        rcases lt_trichotomy x y with hxy | hxy | hxy
        · rcases lt_trichotomy y z with hyz | hyz | hyz
          · simp [lt_trans hxy hyz]
          · subst hyz; simp [hxy]
          · simp [hyz, not_lt.mpr (le_of_lt hyz), lt_irrefl] at h2
        · subst hxy
          rcases lt_trichotomy x z with hyz | hyz | hyz
          · simp [hyz]
          · subst hyz
            simp only [lt_irrefl, if_false] at h1 h2 ⊢
            exact ih h1 h2
          · simp [hyz, not_lt.mpr (le_of_lt hyz), lt_irrefl] at h2
        · simp [hxy, not_lt.mpr (le_of_lt hxy), lt_irrefl] at h1

theorem charsLE_antisymm {a b : List Char} (h1 : charsLE a b = true)
    (h2 : charsLE b a = true) : a = b := by
  induction a generalizing b with
  | nil =>
    cases b with
    | nil => rfl
    | cons y ys => simp [charsLE] at h2
  | cons x xs ih =>
    cases b with
    | nil => simp [charsLE] at h1
    | cons y ys =>
      rcases lt_trichotomy x y with hxy | hxy | hxy
      · simp [charsLE, hxy, not_lt.mpr (le_of_lt hxy), lt_irrefl] at h2
      · subst hxy
        simp only [charsLE, lt_irrefl, if_false] at h1 h2
        rw [ih h1 h2]
      · simp [charsLE, hxy, not_lt.mpr (le_of_lt hxy), lt_irrefl] at h1

theorem strLE_total (s t : String) : strLE s t = true ∨ strLE t s = true :=
  charsLE_total s.data t.data

theorem strLE_trans {s t u : String} (h1 : strLE s t = true)
    (h2 : strLE t u = true) : strLE s u = true :=
  charsLE_trans h1 h2

theorem strLE_antisymm {s t : String} (h1 : strLE s t = true)
    (h2 : strLE t s = true) : s = t := by
  cases s; cases t
  exact congrArg String.mk (charsLE_antisymm h1 h2)

theorem postLE_none_none {a b : Post} (ha : a.scheduledAt = none)
    (hb : b.scheduledAt = none) : (postLE a b = true ↔ b.id ≤ a.id) := by
  simp [postLE, ha, hb]

theorem postLE_some_none {a b : Post} {s : String}
    (ha : a.scheduledAt = some s) (hb : b.scheduledAt = none) :
    postLE a b = true := by
  simp [postLE, ha, hb]

theorem postLE_none_some {a b : Post} {t : String}
    (ha : a.scheduledAt = none) (hb : b.scheduledAt = some t) :
    postLE a b = false := by
  simp [postLE, ha, hb]

/-- Strict ascending order on `datetime()` keys: SQL NULL sorts strictly
before every non-NULL key, and non-NULL keys compare as text. -/
def KeyLT (x y : Option String) : Prop :=
  match x, y with
  | none, some _ => True
  | some s, some t => strLE s t = true ∧ strLE t s = false
  | _, _ => False

theorem keyLT_none_some (t : String) : KeyLT none (some t) := trivial

theorem keyLT_some_some {s t : String} :
    KeyLT (some s) (some t) ↔ strLE s t = true ∧ strLE t s = false :=
  Iff.rfl

theorem keyLT_not_none {x : Option String} : ¬ KeyLT x none := by
  cases x <;> exact fun h => h

theorem keyLT_trichotomy (x y : Option String) :
    KeyLT x y ∨ KeyLT y x ∨ x = y := by
  cases x with
  | none =>
    cases y with
    | none => exact Or.inr (Or.inr rfl)
    | some t => exact Or.inl (keyLT_none_some t)
  | some s =>
    cases y with
    | none => exact Or.inr (Or.inl (keyLT_none_some s))
    | some t =>
      rcases hst : strLE s t with _ | _ <;> rcases hts : strLE t s with _ | _
      · rcases strLE_total s t with h | h
        · rw [h] at hst; cases hst
        · rw [h] at hts; cases hts
      · exact Or.inr (Or.inl (keyLT_some_some.mpr ⟨hts, hst⟩))
      · exact Or.inl (keyLT_some_some.mpr ⟨hst, hts⟩)
      · exact Or.inr (Or.inr (by rw [strLE_antisymm hst hts]))

theorem keyLT_trans {x y z : Option String} (h1 : KeyLT x y)
    (h2 : KeyLT y z) : KeyLT x z := by
  cases y with
  | none => exact absurd h1 keyLT_not_none
  | some t =>
    cases z with
    | none => exact absurd h2 keyLT_not_none
    | some u =>
      cases x with
      | none => exact keyLT_none_some u
      | some s =>
        obtain ⟨hst, hts⟩ := keyLT_some_some.mp h1
        obtain ⟨htu, hut⟩ := keyLT_some_some.mp h2
        refine keyLT_some_some.mpr ⟨strLE_trans hst htu, ?_⟩
        rcases hus : strLE u s with _ | _
        · rfl
        · have : strLE u t = true := strLE_trans hus hst
          rw [hut] at this
          cases this

theorem postLE_some_some {a b : Post} {s t : String}
    (ha : a.scheduledAt = some s) (hb : b.scheduledAt = some t) :
    (postLE a b = true ↔
      KeyLT (dtKey s) (dtKey t) ∨ (dtKey s = dtKey t ∧ b.id ≤ a.id)) := by
  simp only [postLE, ha, hb]
  cases hks : dtKey s with
  | none =>
    cases hkt : dtKey t with
    | none => simp [KeyLT]
    | some kt => simp [KeyLT]
  | some ks =>
    cases hkt : dtKey t with
    | none =>
      constructor
      · intro h
        cases h
      · rintro (h | ⟨h, _⟩)
        · exact absurd h keyLT_not_none
        · cases h
    | some kt =>
      rcases hst : strLE ks kt with _ | _ <;> rcases hts : strLE kt ks with _ | _
      · rcases strLE_total ks kt with h | h
        · rw [h] at hst; cases hst
        · rw [h] at hts; cases hts
      · constructor
        · intro h
          simp [hst, hts] at h
        · rintro (h | ⟨heq, _⟩)
          · rw [keyLT_some_some] at h
            rw [hst] at h
            exact absurd h.1 (by simp)
          · have hke : ks = kt := by simpa using heq
            subst hke
            have hrefl : strLE ks ks = true := charsLE_refl ks.data
            rw [hrefl] at hst
            cases hst
      · simp [hst, hts, keyLT_some_some]
      · have heq : ks = kt := strLE_antisymm hst hts
        subst heq
        constructor
        · intro h
          refine Or.inr ⟨rfl, ?_⟩
          simpa [hst] using h
        · rintro (h | ⟨_, h⟩)
          · rw [keyLT_some_some] at h
            rw [hst] at h
            exact absurd h.2 (by simp)
          · simpa [hst] using h

theorem postOrder_total (a b : Post) : postOrder a b ∨ postOrder b a := by
  unfold postOrder
  cases ha : a.scheduledAt with
  | none =>
    cases hb : b.scheduledAt with
    | none =>
      rcases Nat.le_total a.id b.id with h | h
      · right; exact (postLE_none_none hb ha).mpr h
      · left; exact (postLE_none_none ha hb).mpr h
    | some t => right; exact postLE_some_none hb ha
  | some s =>
    cases hb : b.scheduledAt with
    | none => left; exact postLE_some_none ha hb
    | some t =>
      rcases keyLT_trichotomy (dtKey s) (dtKey t) with h | h | h
      · left; exact (postLE_some_some ha hb).mpr (.inl h)
      · right; exact (postLE_some_some hb ha).mpr (.inl h)
      · rcases Nat.le_total a.id b.id with hid | hid
        · right; exact (postLE_some_some hb ha).mpr (.inr ⟨h.symm, hid⟩)
        · left; exact (postLE_some_some ha hb).mpr (.inr ⟨h, hid⟩)

theorem postOrder_trans {a b c : Post} (h1 : postOrder a b)
    (h2 : postOrder b c) : postOrder a c := by
  unfold postOrder at h1 h2 ⊢
  cases ha : a.scheduledAt with
  | none =>
    cases hb : b.scheduledAt with
    | some t => rw [postLE_none_some ha hb] at h1; cases h1
    | none =>
      cases hc : c.scheduledAt with
      | some u => rw [postLE_none_some hb hc] at h2; cases h2
      | none =>
        exact (postLE_none_none ha hc).mpr
          (le_trans ((postLE_none_none hb hc).mp h2)
            ((postLE_none_none ha hb).mp h1))
  | some s =>
    cases hb : b.scheduledAt with
    | none =>
      cases hc : c.scheduledAt with
      | none => exact postLE_some_none ha hc
      | some u => rw [postLE_none_some hb hc] at h2; cases h2
    | some t =>
      cases hc : c.scheduledAt with
      | none => exact postLE_some_none ha hc
      | some u =>
        rcases (postLE_some_some ha hb).mp h1 with hlt1 | ⟨heq1, hid1⟩
        · rcases (postLE_some_some hb hc).mp h2 with hlt2 | ⟨heq2, hid2⟩
          · exact (postLE_some_some ha hc).mpr (.inl (keyLT_trans hlt1 hlt2))
          · exact (postLE_some_some ha hc).mpr (.inl (heq2 ▸ hlt1))
        · rcases (postLE_some_some hb hc).mp h2 with hlt2 | ⟨heq2, hid2⟩
          · exact (postLE_some_some ha hc).mpr (.inl (heq1 ▸ hlt2))
          · exact (postLE_some_some ha hc).mpr
              (.inr ⟨heq1.trans heq2, le_trans hid2 hid1⟩)

instance : IsTotal Post postOrder := ⟨postOrder_total⟩

instance : IsTrans Post postOrder := ⟨fun _ _ _ => postOrder_trans⟩

/-- The ordering contract as the claim words it: a scheduled post precedes
every unscheduled one; two scheduled posts are in ascending raw
`scheduledAt`; two unscheduled posts are in descending `id` (newest first);
an unscheduled post never precedes a scheduled one.  This is the claim's
relation, kept for comparison with the code's actual ordering — the code
orders by `datetime(scheduledAt)`, which truncates sub-second precision,
so this raw-string contract fails on same-second ties. -/
def specOrder (a b : Post) : Prop :=
  match a.scheduledAt, b.scheduledAt with
  | some s, some t => strLE s t = true
  | some _, none => True
  | none, none => b.id ≤ a.id
  | none, some _ => False

/-- The ordering the code actually implements, keyed on
`datetime(scheduledAt)`: a scheduled post precedes every unscheduled one;
two scheduled posts are in ascending second-truncated `datetime` key, and
when their keys tie (same-second schedules, or both unparseable) they fall
to descending `id`; unscheduled posts are in descending `id`. -/
def specOrderDT (a b : Post) : Prop :=
  match a.scheduledAt, b.scheduledAt with
  | some s, some t =>
      KeyLT (dtKey s) (dtKey t) ∨ (dtKey s = dtKey t ∧ b.id ≤ a.id)
  | some _, none => True
  | none, none => b.id ≤ a.id
  | none, some _ => False

theorem postOrder_implies_specOrderDT {a b : Post} (h : postOrder a b) :
    specOrderDT a b := by
  unfold postOrder at h
  unfold specOrderDT
  cases ha : a.scheduledAt with
  | none =>
    cases hb : b.scheduledAt with
    | none => exact (postLE_none_none ha hb).mp h
    | some t => rw [postLE_none_some ha hb] at h; cases h
  | some s =>
    cases hb : b.scheduledAt with
    | none => trivial
    | some t => exact (postLE_some_some ha hb).mp h

/-! ### Concrete fixtures for closed statements -/

/-- Scenario post A: no schedule, newest id. -/
def exA : Post :=
  { id := 3
    user_id := 7
    title := "A"
    description := none
    url := none
    scheduledAt := none
    sent := 0 }

/-- Scenario post B: scheduled at T1. -/
def exB : Post :=
  { id := 2
    user_id := 7
    title := "B"
    description := none
    url := none
    scheduledAt := some "2024-05-05T00:00:00.000Z"
    sent := 0 }

/-- Scenario post C: scheduled at T2 < T1. -/
def exC : Post :=
  { id := 1
    user_id := 7
    title := "C"
    description := none
    url := none
    scheduledAt := some "2024-03-03T00:00:00.000Z"
    sent := 0 }

/-- Same-second fixture: scheduled at .100Z, older id. -/
def exF1 : Post :=
  { id := 1
    user_id := 7
    title := "F1"
    description := none
    url := none
    scheduledAt := some "2024-05-05T00:00:00.100Z"
    sent := 0 }

/-- Same-second fixture: scheduled at .200Z, newer id. -/
def exF2 : Post :=
  { id := 2
    user_id := 7
    title := "F2"
    description := none
    url := none
    scheduledAt := some "2024-05-05T00:00:00.200Z"
    sent := 0 }

/-- A single due scheduled post, used as the race fixture. -/
def exDue : Post :=
  { id := 1
    user_id := 7
    title := "X"
    description := some "Y"
    url := none
    scheduledAt := some "2024-01-01T00:00:00.000Z"
    sent := 0 }

/-- A scan time later than `exDue`'s schedule. -/
def exNow : String := "2024-01-02T00:00:00.000Z"

/-! ### Claims -/

/-- C2: for every post P and every time `now`, the due-candidate query
returns P iff P is stored, P.scheduledAt is non-null with value at most
`now`, and P is undelivered (`sent = 0`); hence it never returns an
unscheduled draft or a delivered post. -/
theorem c2_candidate_query_correct (now : String) (store : List Post)
    (p : Post) :
    p ∈ claimDueCandidates now store ↔
      p ∈ store ∧ p.sent = 0 ∧
        ∃ t, p.scheduledAt = some t ∧ strLE t now = true := by
  simp only [claimDueCandidates, List.mem_filter, isDueCandidate,
    Bool.and_eq_true, beq_iff_eq]
  cases hp : p.scheduledAt with
  | none => simp
  | some t => simp [and_assoc]

/-- C3: `markDelivered` (the post-success DELETE) is terminal and
idempotent: the first call removes every row with the target id (and
reports `ok` when one existed); a second call changes nothing and reports
`alreadyGone`. -/
theorem c3_markDelivered_idempotent (store : List Post) (id : Nat) :
    (markDelivered (markDelivered store id).1 id).1 = (markDelivered store id).1 ∧
    (markDelivered (markDelivered store id).1 id).2 = MarkResult.alreadyGone ∧
    (∀ q ∈ (markDelivered store id).1, q.id ≠ id) ∧
    ((∃ q ∈ store, q.id = id) → (markDelivered store id).2 = MarkResult.ok) := by
  have hgone : ∀ q ∈ (markDelivered store id).1, q.id ≠ id := by
    intro q hq
    simp only [markDelivered, List.mem_filter, bne_iff_ne, ne_eq] at hq
    exact hq.2
  refine ⟨?_, ?_, hgone, ?_⟩
  · simp [markDelivered, List.filter_filter]
  · simp only [markDelivered]
    rw [if_neg]
    simp only [List.any_eq_true, beq_iff_eq, not_exists]
    intro q hq
    exact hgone q hq.1 hq.2
  · rintro ⟨q, hq, hid⟩
    simp only [markDelivered]
    rw [if_pos]
    exact List.any_eq_true.mpr ⟨q, hq, beq_iff_eq.mpr hid⟩

/-- C3 witness: on a store holding the fixture post with id 1, the first
deletion reports `ok`, deleting twice equals deleting once, and the second
call reports `alreadyGone`. -/
theorem c3_markDelivered_idempotent_witness :
    (markDelivered (markDelivered [exDue] 1).1 1).1 = (markDelivered [exDue] 1).1 ∧
    (markDelivered (markDelivered [exDue] 1).1 1).2 = MarkResult.alreadyGone ∧
    (markDelivered [exDue] 1).2 = MarkResult.ok := by
  have h := c3_markDelivered_idempotent [exDue] 1
  exact ⟨h.1, h.2.1, h.2.2.2 ⟨exDue, by simp, by decide⟩⟩

/-- C4 counterexample: creating a post with the empty-string title is not
rejected — the row is inserted and its id returned, contradicting the
claimed synchronous `ValidationError`. -/
theorem c4_counterexample :
    createPost [] 1 7 (some "") none none =
      .ok ([{ id := 1
              user_id := 7
              title := ""
              description := none
              url := none
              scheduledAt := none
              sent := 0 }], 1) := rfl

/-- C4 amended: the create route performs no title validation.  Every
supplied (non-null) title, the empty string included, inserts an
unscheduled draft and returns its new id; only an absent (null) title
fails — via the store's NOT NULL constraint, inserting nothing. -/
theorem c4_create_no_title_validation (store : List Post) (nextId uId : Nat)
    (t : String) (d u : Option String) :
    createPost store nextId uId (some t) d u =
      .ok (store ++ [{ id := nextId
                       user_id := uId
                       title := t
                       description := d
                       url := u
                       scheduledAt := none
                       sent := 0 }], nextId) ∧
    createPost store nextId uId none d u =
      .error "NOT NULL constraint failed: posts.title" :=
  ⟨rfl, rfl⟩

/-- C5 counterexample: two posts of one owner scheduled within the same
second (sub-second fractions .100 and .200).  `datetime()` truncates to
whole seconds, so ORDER BY ties and falls to `id DESC`: the query returns
the newer post first — raw `scheduledAt` DESCENDING — refuting the claimed
ascending-`scheduledAt` ordering. -/
theorem c5_counterexample :
    listByOwner 7 [exF1, exF2] = [exF2, exF1] ∧
    ¬ List.Pairwise specOrder (listByOwner 7 [exF1, exF2]) := by
  have he : listByOwner 7 [exF1, exF2] = [exF2, exF1] := by decide
  refine ⟨he, ?_⟩
  rw [he]
  intro h
  have hrel : specOrder exF2 exF1 := (List.pairwise_cons.mp h).1 exF1 (by simp)
  have hr : strLE "2024-05-05T00:00:00.200Z" "2024-05-05T00:00:00.100Z" = true := by
    simpa [specOrder, exF1, exF2] using hrel
  exact absurd hr (by decide)

/-- C5 amended: for a store whose schedules are well-formed UTC ISO-8601
timestamps (the format this application produces), `listByOwner` returns
exactly the owner's posts, scheduled posts first in ascending
second-truncated `datetime(scheduledAt)` key — same-second ties, like the
whole unscheduled group, in descending id (newest first) — and the A/B/C
scenario, whose schedules differ at whole seconds, still returns
[C, B, A]. -/
theorem c5_listByOwner_ordering (owner : Nat) (store : List Post)
    (hwf : ∀ p ∈ store,
      p.scheduledAt.all (fun s => (dtKey s).isSome) = true) :
    List.Pairwise specOrderDT (listByOwner owner store) ∧
    (listByOwner owner store).Perm
      (store.filter (fun p => p.user_id == owner)) ∧
    (∀ p ∈ listByOwner owner store,
      p.scheduledAt.all (fun s => (dtKey s).isSome) = true) ∧
    listByOwner 7 [exA, exB, exC] = [exC, exB, exA] := by
  have hperm :=
    List.perm_insertionSort postOrder (store.filter (fun p => p.user_id == owner))
  refine ⟨?_, hperm, ?_, by decide⟩
  · exact List.Pairwise.imp (fun h => postOrder_implies_specOrderDT h)
      (List.sorted_insertionSort postOrder _)
  · intro p hp
    exact hwf p (List.mem_filter.mp (hperm.subset hp)).1

/-- C5 witness: the A/B/C store's schedules all parse, and the amended
theorem applied there yields the ordered [C, B, A] result. -/
theorem c5_listByOwner_ordering_witness :
    List.Pairwise specOrderDT (listByOwner 7 [exA, exB, exC]) ∧
    listByOwner 7 [exA, exB, exC] = [exC, exB, exA] := by
  have h := c5_listByOwner_ordering 7 [exA, exB, exC] (by decide)
  exact ⟨h.1, h.2.2.2⟩

theorem foldl_processPost_calls (users outcome : Nat → Bool) (l : List Post)
    (acc : List Post × Nat) :
    (l.foldl (processPost users outcome) acc).2 =
      acc.2 + (l.filter (fun p => users p.user_id)).length := by
  induction l generalizing acc with
  | nil => simp
  | cons a l ih =>
    simp only [List.foldl_cons]
    rw [ih]
    rcases hu : users a.user_id with _ | _ <;>
      rcases ho : outcome a.id with _ | _ <;>
        simp [processPost, hu, ho, List.filter_cons] <;> omega

theorem foldl_processPost_mem (users outcome : Nat → Bool) (l : List Post)
    (acc : List Post × Nat) (q : Post) (hq : q ∈ acc.1)
    (hok : ∀ p ∈ l, users p.user_id = true → outcome p.id = true → p.id ≠ q.id) :
    q ∈ (l.foldl (processPost users outcome) acc).1 := by
  induction l generalizing acc with
  | nil => exact hq
  | cons a l ih =>
    simp only [List.foldl_cons]
    refine ih _ ?_ (fun p hp => hok p (List.mem_cons_of_mem a hp))
    simp only [processPost]
    rcases hu : users a.user_id with _ | _ <;>
      rcases ho : outcome a.id with _ | _ <;> simp [hu, ho]
    · exact hq
    · exact hq
    · exact hq
    · exact ⟨hq, fun h => hok a (List.mem_cons_self a l) hu ho h.symm⟩

theorem foldl_processPost_subset (users outcome : Nat → Bool) (l : List Post)
    (acc : List Post × Nat) (q : Post)
    (hq : q ∈ (l.foldl (processPost users outcome) acc).1) : q ∈ acc.1 := by
  induction l generalizing acc with
  | nil => exact hq
  | cons a l ih =>
    simp only [List.foldl_cons] at hq
    have h := ih _ hq
    simp only [processPost] at h
    rcases hu : users a.user_id with _ | _ <;>
      rcases ho : outcome a.id with _ | _ <;> simp [hu, ho] at h
    · exact h
    · exact h
    · exact h
    · exact h.1

/-- C6: when the gateway send for candidate P fails during a tick, P's
record survives the tick unchanged (so it is a candidate again at the same
`now`), and the tick still makes one gateway call for every candidate whose
owner exists — failures never abort processing of the other posts. -/
theorem c6_failure_leaves_post (users outcome : Nat → Bool) (now : String)
    (store : List Post) (P : Post) (hmem : P ∈ store)
    (hdue : isDueCandidate now P = true) (huser : users P.user_id = true)
    (hfail : outcome P.id = false) :
    P ∈ (scanTick users outcome now store).store ∧
    P ∈ claimDueCandidates now (scanTick users outcome now store).store ∧
    (scanTick users outcome now store).gatewayCalls =
      ((claimDueCandidates now store).filter (fun p => users p.user_id)).length := by
  have hsurv : P ∈ (scanTick users outcome now store).store := by
    simp only [scanTick]
    refine foldl_processPost_mem users outcome _ _ P hmem ?_
    intro p hp hu ho hid
    rw [hid, hfail] at ho
    cases ho
  refine ⟨hsurv, List.mem_filter.mpr ⟨hsurv, hdue⟩, ?_⟩
  simp only [scanTick]
  rw [foldl_processPost_calls]
  simp

/-- C6 witness: one due post whose owner exists and whose send fails —
after the tick it is still stored, still a candidate, and the tick made
exactly one gateway call. -/
theorem c6_failure_leaves_post_witness :
    exDue ∈ (scanTick (fun _ => true) (fun _ => false) exNow [exDue]).store ∧
    exDue ∈ claimDueCandidates exNow
      (scanTick (fun _ => true) (fun _ => false) exNow [exDue]).store ∧
    (scanTick (fun _ => true) (fun _ => false) exNow [exDue]).gatewayCalls =
      ((claimDueCandidates exNow [exDue]).filter (fun _ => true)).length :=
  c6_failure_leaves_post (fun _ => true) (fun _ => false) exNow [exDue] exDue
    (by decide) (by decide) rfl rfl

/-- C7: the UPDATE route changes only the supplied fields: an omitted (or
null) title, description or scheduledAt keeps its stored value, supplying
a value sets it, an explicit null for the media reference `url` clears it
to null, and `id`, `user_id` and `sent` are never touched; rows with a
different id are left in place unchanged. -/
theorem c7_update_only_supplied_fields (t d : Option String)
    (u : Option (Option String)) (s : Option String) (p : Post)
    (store : List Post) (id : Nat) :
    ((t = none → (applyUpdate t d u s p).title = p.title) ∧
     (∀ v, t = some v → (applyUpdate t d u s p).title = v) ∧
     (d = none → (applyUpdate t d u s p).description = p.description) ∧
     (∀ v, d = some v → (applyUpdate t d u s p).description = some v) ∧
     (u = none → (applyUpdate t d u s p).url = p.url) ∧
     (u = some none → (applyUpdate t d u s p).url = none) ∧
     (∀ v, u = some (some v) → (applyUpdate t d u s p).url = some v) ∧
     (s = none → (applyUpdate t d u s p).scheduledAt = p.scheduledAt) ∧
     (∀ v, s = some v → (applyUpdate t d u s p).scheduledAt = some v) ∧
     (applyUpdate t d u s p).id = p.id ∧
     (applyUpdate t d u s p).user_id = p.user_id ∧
     (applyUpdate t d u s p).sent = p.sent) ∧
    (∀ q ∈ store, q.id ≠ id → q ∈ updatePost store id t d u s) := by
  constructor
  · refine ⟨?_, ?_, ?_, ?_, ?_, ?_, ?_, ?_, ?_, rfl, rfl, rfl⟩ <;>
      first
        | (rintro rfl; simp [applyUpdate])
        | (rintro v rfl; simp [applyUpdate])
  · intro q hq hne
    refine List.mem_map.mpr ⟨q, hq, ?_⟩
    show (if q.id == id then applyUpdate t d u s q else q) = q
    rw [if_neg (by simpa using hne)]

/-- C7 witness: updating post 1 with everything omitted except an explicit
null url keeps title, description and schedule, clears the url, and leaves
a row with a different id untouched. -/
theorem c7_update_only_supplied_fields_witness :
    (applyUpdate none none (some none) none exB).title = exB.title ∧
    (applyUpdate none none (some none) none exB).url = none ∧
    (applyUpdate none none (some none) none exB).scheduledAt = exB.scheduledAt ∧
    exA ∈ updatePost [exA, exB] 2 none none (some none) none := by
  have h := c7_update_only_supplied_fields none none (some none) none exB
    [exA, exB] 2
  exact ⟨h.1.1 rfl, h.1.2.2.2.2.2.1 rfl, h.1.2.2.2.2.2.2.2.1 rfl,
    h.2 exA (by decide) (by decide)⟩

/-- C8: a post whose `scheduledAt` is null never satisfies the candidate
query; after the cancel route clears a post's schedule, no candidate with
that id exists at any later time, and none exists even after an in-flight
delivery finishes with its terminal DELETE. -/
theorem c8_cancel_removes_candidacy (store : List Post) (id : Nat)
    (now : String) :
    (∀ p : Post, p.scheduledAt = none → isDueCandidate now p = false) ∧
    (∀ p ∈ claimDueCandidates now (cancelSchedule store id), p.id ≠ id) ∧
    (∀ p ∈ claimDueCandidates now
        (markDelivered (cancelSchedule store id) id).1, p.id ≠ id) := by
  have hnone : ∀ p : Post, p.scheduledAt = none → isDueCandidate now p = false := by
    intro p hp
    simp [isDueCandidate, hp]
  refine ⟨hnone, ?_, ?_⟩
  · intro p hp hid
    rcases List.mem_filter.mp hp with ⟨hmem, hdue⟩
    rcases List.mem_map.mp hmem with ⟨q, _, hq⟩
    by_cases hqid : q.id = id
    · rw [if_pos (beq_iff_eq.mpr hqid)] at hq
      rw [hnone p (by rw [← hq])] at hdue
      cases hdue
    · rw [if_neg (by simpa using hqid)] at hq
      subst hq
      exact hqid hid
  · intro p hp hid
    rcases List.mem_filter.mp hp with ⟨hmem, _⟩
    rcases List.mem_filter.mp hmem with ⟨_, hne⟩
    exact (bne_iff_ne.mp hne) hid

/-- C8 witness: the fixture post with its schedule cleared is rejected by
the candidate predicate. -/
theorem c8_cancel_removes_candidacy_witness :
    isDueCandidate exNow { exDue with scheduledAt := none } = false :=
  (c8_cancel_removes_candidacy [exDue] 1 exNow).1 _ rfl

/-- C9: every operation keeps every stored `sent` flag at 0 — creation
inserts the column default 0, scheduling resets it to 0, no operation
writes any other value, and delivery deletes the row instead of marking
it. -/
theorem c9_sent_always_zero (store : List Post)
    (h : ∀ p ∈ store, p.sent = 0) :
    (∀ nextId uId t d u store' nid,
        createPost store nextId uId t d u = .ok (store', nid) →
        ∀ p ∈ store', p.sent = 0) ∧
    (∀ id t d u s, ∀ p ∈ updatePost store id t d u s, p.sent = 0) ∧
    (∀ id sched, ∀ p ∈ schedulePost store id sched, p.sent = 0) ∧
    (∀ id, ∀ p ∈ cancelSchedule store id, p.sent = 0) ∧
    (∀ id, ∀ p ∈ deletePost store id, p.sent = 0) ∧
    (∀ id, ∀ p ∈ deleteImage store id, p.sent = 0) ∧
    (∀ id, ∀ p ∈ (markDelivered store id).1, p.sent = 0) ∧
    (∀ users outcome now,
        ∀ p ∈ (scanTick users outcome now store).store, p.sent = 0) := by
  refine ⟨?_, ?_, ?_, ?_, ?_, ?_, ?_, ?_⟩
  · intro nextId uId t d u store' nid hc p hp
    cases t with
    | none => cases hc
    | some t0 =>
      simp only [createPost, Except.ok.injEq, Prod.mk.injEq] at hc
      rcases hc with ⟨rfl, -⟩
      rcases List.mem_append.mp hp with hp | hp
      · exact h p hp
      · simp only [List.mem_singleton] at hp
        subst hp
        rfl
  · intro id t d u s p hp
    rcases List.mem_map.mp hp with ⟨q, hq, rfl⟩
    by_cases hid : q.id == id
    · rw [if_pos hid]
      simpa [applyUpdate] using h q hq
    · rw [if_neg hid]
      exact h q hq
  · intro id sched p hp
    rcases List.mem_map.mp hp with ⟨q, hq, rfl⟩
    by_cases hid : q.id == id
    · rw [if_pos hid]
    · rw [if_neg hid]
      exact h q hq
  · intro id p hp
    rcases List.mem_map.mp hp with ⟨q, hq, rfl⟩
    by_cases hid : q.id == id
    · rw [if_pos hid]
      simpa using h q hq
    · rw [if_neg hid]
      exact h q hq
  · intro id p hp
    exact h p (List.mem_filter.mp hp).1
  · intro id p hp
    rcases List.mem_map.mp hp with ⟨q, hq, rfl⟩
    by_cases hid : q.id == id
    · rw [if_pos hid]
      simpa using h q hq
    · rw [if_neg hid]
      exact h q hq
  · intro id p hp
    exact h p (List.mem_filter.mp hp).1
  · intro users outcome now p hp
    simp only [scanTick] at hp
    exact h p (foldl_processPost_subset users outcome _ _ p hp)

/-- C9 witness: on a store satisfying the invariant, the post left by a
cancel still has `sent = 0`. -/
theorem c9_sent_always_zero_witness :
    ({ exDue with scheduledAt := none } : Post).sent = 0 :=
  (c9_sent_always_zero [exDue] (by decide)).2.2.2.1 1 _ (by decide)

/-- C10: a tick broadcasts at most one `posts_updated` event, and exactly
one iff the candidate query returned at least one post — independently of
how many deliveries succeeded or failed. -/
theorem c10_one_broadcast_per_tick (users outcome : Nat → Bool)
    (now : String) (store : List Post) :
    (scanTick users outcome now store).events ≤ 1 ∧
    ((scanTick users outcome now store).events = 1 ↔
      claimDueCandidates now store ≠ []) := by
  cases hc : claimDueCandidates now store with
  | nil => simp [scanTick, hc]
  | cons a l => simp [scanTick, hc]

/-! ### The scan / manual-dispatch race (C1) -/

/-- What remains of the scan path after its read. -/
def scanPend1 : List Act := [Act.scanSend, Act.scanFinish]

/-- What remains of the manual path after its read. -/
def manPend1 : List Act := [Act.manSend, Act.manFinish]

/-- The scan-subsequence of a partially executed interleaving is a suffix
of the scan program. -/
def ScanSuffix (xs : List Act) : Prop :=
  xs = scanProg ∨ xs = scanPend1 ∨ xs = [Act.scanFinish] ∨ xs = []

/-- The manual-subsequence of a partially executed interleaving is a
suffix of the manual program. -/
def ManSuffix (ys : List Act) : Prop :=
  ys = manProg ∨ ys = manPend1 ∨ ys = [Act.manFinish] ∨ ys = []

/-- Invariant of the race for target post `P`, with `xs`/`ys` the actions
the scan and manual paths have yet to run: a path that saw the post either
still has its send pending or has already called the gateway; and at least
one gateway call is inevitable — either it happened, or a path that saw
the post has its send pending, or the post is still stored with some
path's read pending. -/
def RaceInv (P : Post) (s : RaceState) (xs ys : List Act) : Prop :=
  (s.scanSaw = true → xs = scanPend1 ∨ 1 ≤ s.calls) ∧
  (s.manSaw = true → ys = manPend1 ∨ 1 ≤ s.calls) ∧
  (1 ≤ s.calls
    ∨ (s.scanSaw = true ∧ xs = scanPend1)
    ∨ (s.manSaw = true ∧ ys = manPend1)
    ∨ (P ∈ s.store ∧ (xs = scanProg ∨ ys = manProg)))

theorem runActs_calls_le (now : String) (pid : Nat) (userOk : Bool)
    (l : List Act) (s : RaceState) :
    (runActs now pid userOk l s).calls ≤
      s.calls + l.count Act.scanSend + l.count Act.manSend := by
  induction l generalizing s with
  | nil => simp [runActs]
  | cons a l ih =>
    simp only [runActs]
    refine le_trans (ih _) ?_
    have hstep : (raceStep now pid userOk s a).calls ≤ s.calls + 1 := by
      cases a <;> simp only [raceStep] <;> try split
      all_goals simp
    have hstep0 : a ≠ Act.scanSend → a ≠ Act.manSend →
        (raceStep now pid userOk s a).calls = s.calls := by
      intro h1 h2
      cases a <;> simp only [raceStep] <;> try split
      all_goals first | rfl | (exact absurd rfl h1) | (exact absurd rfl h2)
    by_cases h1 : a = Act.scanSend
    · subst h1
      have c2 : (Act.scanSend :: l).count Act.manSend = l.count Act.manSend := by
        simp [List.count_cons]
      rw [c2, List.count_cons_self]
      omega
    · by_cases h2 : a = Act.manSend
      · subst h2
        have c1 : (Act.manSend :: l).count Act.scanSend = l.count Act.scanSend := by
          simp [List.count_cons]
        rw [c1, List.count_cons_self]
        omega
      · rw [hstep0 h1 h2]
        have c1 : (a :: l).count Act.scanSend = l.count Act.scanSend := by
          simp [List.count_cons, Ne.symm h1]
        have c2 : (a :: l).count Act.manSend = l.count Act.manSend := by
          simp [List.count_cons, Ne.symm h2]
        rw [c1, c2]

theorem count_scanSend_of_merge {l : List Act}
    (h : l.filter isScanAct = scanProg) : l.count Act.scanSend = 1 := by
  have hc : (l.filter isScanAct).count Act.scanSend = l.count Act.scanSend :=
    List.count_filter rfl
  rw [h] at hc
  exact hc.symm.trans (by decide)

theorem count_manSend_of_merge {l : List Act}
    (h : l.filter isManAct = manProg) : l.count Act.manSend = 1 := by
  have hc : (l.filter isManAct).count Act.manSend = l.count Act.manSend :=
    List.count_filter rfl
  rw [h] at hc
  exact hc.symm.trans (by decide)

theorem runActs_calls_ge (now : String) (P : Post)
    (hdue : isDueCandidate now P = true) (l : List Act) (s : RaceState)
    (hxs : ScanSuffix (l.filter isScanAct))
    (hys : ManSuffix (l.filter isManAct))
    (hinv : RaceInv P s (l.filter isScanAct) (l.filter isManAct)) :
    1 ≤ (runActs now P.id true l s).calls := by
  have hsaw : ∀ st : List Post, P ∈ st →
      ((claimDueCandidates now st).any (fun p => p.id == P.id)) = true :=
    fun st hm => List.any_eq_true.mpr
      ⟨P, List.mem_filter.mpr ⟨hm, hdue⟩, by simp⟩
  have hsaw' : ∀ st : List Post, P ∈ st →
      (st.any (fun p => p.id == P.id)) = true :=
    fun st hm => List.any_eq_true.mpr ⟨P, hm, by simp⟩
  induction l generalizing s with
  | nil =>
    rcases hinv.2.2 with h | ⟨_, h⟩ | ⟨_, h⟩ | ⟨_, h | h⟩
    · exact h
    · simp [scanPend1] at h
    · simp [manPend1] at h
    · simp [scanProg] at h
    · simp [manProg] at h
  | cons a l ih =>
    obtain ⟨hA, hB, hC⟩ := hinv
    cases a with
    | scanRead =>
      rw [show (Act.scanRead :: l).filter isScanAct =
            Act.scanRead :: l.filter isScanAct from rfl] at hxs hA hC
      rw [show (Act.scanRead :: l).filter isManAct =
            l.filter isManAct from rfl] at hys hB hC
      have hxs' : l.filter isScanAct = scanPend1 := by
        rcases hxs with h | h | h | h
        · simpa [scanProg, scanPend1] using h
        · simp [scanPend1] at h
        · simp at h
        · simp at h
      have hstep : raceStep now P.id true s Act.scanRead =
          { s with scanSaw :=
              (claimDueCandidates now s.store).any (fun p => p.id == P.id) } := rfl
      simp only [runActs, hstep]
      refine ih _ (Or.inr (Or.inl hxs')) hys ⟨?_, ?_, ?_⟩
      · intro _
        exact Or.inl hxs'
      · intro hm
        exact hB hm
      · rcases hC with h | ⟨_, h⟩ | ⟨hm, h⟩ | ⟨hmem, _⟩
        · exact Or.inl h
        · rw [hxs'] at h
          simp [scanPend1] at h
        · exact Or.inr (Or.inr (Or.inl ⟨hm, h⟩))
        · exact Or.inr (Or.inl ⟨hsaw _ hmem, hxs'⟩)
    | scanSend =>
      rw [show (Act.scanSend :: l).filter isScanAct =
            Act.scanSend :: l.filter isScanAct from rfl] at hxs hA hC
      rw [show (Act.scanSend :: l).filter isManAct =
            l.filter isManAct from rfl] at hys hB hC
      have hxs' : l.filter isScanAct = [Act.scanFinish] := by
        rcases hxs with h | h | h | h
        · simp [scanProg] at h
        · simpa [scanPend1] using h
        · simp at h
        · simp at h
      simp only [runActs]
      rcases hss : s.scanSaw with _ | _
      · have hstep : raceStep now P.id true s Act.scanSend = s := by
          simp [raceStep, hss]
        rw [hstep]
        refine ih _ (Or.inr (Or.inr (Or.inl hxs'))) hys ⟨?_, hB, ?_⟩
        · intro hc
          simp [hss] at hc
        · rcases hC with h | ⟨h, _⟩ | ⟨hm, h⟩ | ⟨hmem, h | h⟩
          · exact Or.inl h
          · simp [hss] at h
          · exact Or.inr (Or.inr (Or.inl ⟨hm, h⟩))
          · simp [scanProg] at h
          · exact Or.inr (Or.inr (Or.inr ⟨hmem, Or.inr h⟩))
      · have hstep : raceStep now P.id true s Act.scanSend =
            { s with calls := s.calls + 1 } := by
          simp [raceStep, hss]
        rw [hstep]
        have hcall : 1 ≤ s.calls + 1 := Nat.le_add_left 1 s.calls
        exact ih _ (Or.inr (Or.inr (Or.inl hxs'))) hys
          ⟨fun _ => Or.inr hcall, fun _ => Or.inr hcall, Or.inl hcall⟩
    | scanFinish =>
      rw [show (Act.scanFinish :: l).filter isScanAct =
            Act.scanFinish :: l.filter isScanAct from rfl] at hxs hA hC
      rw [show (Act.scanFinish :: l).filter isManAct =
            l.filter isManAct from rfl] at hys hB hC
      have hxs' : l.filter isScanAct = [] := by
        rcases hxs with h | h | h | h
        · simp [scanProg] at h
        · simp [scanPend1] at h
        · simpa using h
        · simp at h
      simp only [runActs]
      rcases hss : s.scanSaw with _ | _
      · have hstep : raceStep now P.id true s Act.scanFinish = s := by
          simp [raceStep, hss]
        rw [hstep]
        refine ih _ (Or.inr (Or.inr (Or.inr hxs'))) hys ⟨?_, hB, ?_⟩
        · intro hc
          simp [hss] at hc
        · rcases hC with h | ⟨h, _⟩ | ⟨hm, h⟩ | ⟨hmem, h | h⟩
          · exact Or.inl h
          · simp [hss] at h
          · exact Or.inr (Or.inr (Or.inl ⟨hm, h⟩))
          · simp [scanProg] at h
          · exact Or.inr (Or.inr (Or.inr ⟨hmem, Or.inr h⟩))
      · have hcall : 1 ≤ s.calls := by
          rcases hA hss with h | h
          · simp [scanPend1] at h
          · exact h
        have hstep : raceStep now P.id true s Act.scanFinish =
            { s with store := s.store.filter (fun p => p.id != P.id) } := by
          simp [raceStep, hss]
        rw [hstep]
        exact ih _ (Or.inr (Or.inr (Or.inr hxs'))) hys
          ⟨fun _ => Or.inr hcall, fun _ => Or.inr hcall, Or.inl hcall⟩
    | manRead =>
      rw [show (Act.manRead :: l).filter isScanAct =
            l.filter isScanAct from rfl] at hxs hA hC
      rw [show (Act.manRead :: l).filter isManAct =
            Act.manRead :: l.filter isManAct from rfl] at hys hB hC
      have hys' : l.filter isManAct = manPend1 := by
        rcases hys with h | h | h | h
        · simpa [manProg, manPend1] using h
        · simp [manPend1] at h
        · simp at h
        · simp at h
      have hstep : raceStep now P.id true s Act.manRead =
          { s with manSaw := s.store.any (fun p => p.id == P.id) } := rfl
      simp only [runActs, hstep]
      refine ih _ hxs (Or.inr (Or.inl hys')) ⟨?_, ?_, ?_⟩
      · intro hm
        exact hA hm
      · intro _
        exact Or.inl hys'
      · rcases hC with h | ⟨hm, h⟩ | ⟨_, h⟩ | ⟨hmem, _⟩
        · exact Or.inl h
        · exact Or.inr (Or.inl ⟨hm, h⟩)
        · rw [hys'] at h
          simp [manPend1] at h
        · exact Or.inr (Or.inr (Or.inl ⟨hsaw' _ hmem, hys'⟩))
    | manSend =>
      rw [show (Act.manSend :: l).filter isScanAct =
            l.filter isScanAct from rfl] at hxs hA hC
      rw [show (Act.manSend :: l).filter isManAct =
            Act.manSend :: l.filter isManAct from rfl] at hys hB hC
      have hys' : l.filter isManAct = [Act.manFinish] := by
        rcases hys with h | h | h | h
        · simp [manProg] at h
        · simpa [manPend1] using h
        · simp at h
        · simp at h
      simp only [runActs]
      rcases hss : s.manSaw with _ | _
      · have hstep : raceStep now P.id true s Act.manSend = s := by
          simp [raceStep, hss]
        rw [hstep]
        refine ih _ hxs (Or.inr (Or.inr (Or.inl hys'))) ⟨hA, ?_, ?_⟩
        · intro hc
          simp [hss] at hc
        · rcases hC with h | ⟨hm, h⟩ | ⟨h, _⟩ | ⟨hmem, h | h⟩
          · exact Or.inl h
          · exact Or.inr (Or.inl ⟨hm, h⟩)
          · simp [hss] at h
          · exact Or.inr (Or.inr (Or.inr ⟨hmem, Or.inl h⟩))
          · simp [manProg] at h
      · have hstep : raceStep now P.id true s Act.manSend =
            { s with calls := s.calls + 1 } := by
          simp [raceStep, hss]
        rw [hstep]
        have hcall : 1 ≤ s.calls + 1 := Nat.le_add_left 1 s.calls
        exact ih _ hxs (Or.inr (Or.inr (Or.inl hys')))
          ⟨fun _ => Or.inr hcall, fun _ => Or.inr hcall, Or.inl hcall⟩
    | manFinish =>
      rw [show (Act.manFinish :: l).filter isScanAct =
            l.filter isScanAct from rfl] at hxs hA hC
      rw [show (Act.manFinish :: l).filter isManAct =
            Act.manFinish :: l.filter isManAct from rfl] at hys hB hC
      have hys' : l.filter isManAct = [] := by
        rcases hys with h | h | h | h
        · simp [manProg] at h
        · simp [manPend1] at h
        · simpa using h
        · simp at h
      simp only [runActs]
      rcases hss : s.manSaw with _ | _
      · have hstep : raceStep now P.id true s Act.manFinish = s := by
          simp [raceStep, hss]
        rw [hstep]
        refine ih _ hxs (Or.inr (Or.inr (Or.inr hys'))) ⟨hA, ?_, ?_⟩
        · intro hc
          simp [hss] at hc
        · rcases hC with h | ⟨hm, h⟩ | ⟨h, _⟩ | ⟨hmem, h | h⟩
          · exact Or.inl h
          · exact Or.inr (Or.inl ⟨hm, h⟩)
          · simp [hss] at h
          · exact Or.inr (Or.inr (Or.inr ⟨hmem, Or.inl h⟩))
          · simp [manProg] at h
      · have hcall : 1 ≤ s.calls := by
          rcases hB hss with h | h
          · simp [manPend1] at h
          · exact h
        have hstep : raceStep now P.id true s Act.manFinish =
            { s with store := s.store.filter (fun p => p.id != P.id) } := by
          simp [raceStep, hss]
        rw [hstep]
        exact ih _ hxs (Or.inr (Or.inr (Or.inr hys')))
          ⟨fun _ => Or.inr hcall, fun _ => Or.inr hcall, Or.inl hcall⟩

/-- C1 counterexample: the interleaving in which both paths read the store
before either deletes makes TWO successful gateway calls for the due post —
the code has no claim step, so "never two" fails. -/
theorem c1_counterexample :
    IsInterleaving [Act.scanRead, Act.manRead, Act.scanSend, Act.manSend,
      Act.scanFinish, Act.manFinish] ∧
    (runActs exNow 1 true [Act.scanRead, Act.manRead, Act.scanSend,
      Act.manSend, Act.scanFinish, Act.manFinish]
      (raceInit [exDue])).calls = 2 := by
  exact ⟨⟨rfl, rfl⟩, by decide⟩

/-- C1 amended: concurrently running the periodic scan and the manual
dispatch against a stored due post yields at least one and at most two
successful gateway calls for it — never zero, but possibly two, because
neither path excludes the other between its read and its delete. -/
theorem c1_race_bounds (now : String) (P : Post) (store : List Post)
    (l : List Act) (hP : P ∈ store) (hdue : isDueCandidate now P = true)
    (hl : IsInterleaving l) :
    1 ≤ (runActs now P.id true l (raceInit store)).calls ∧
    (runActs now P.id true l (raceInit store)).calls ≤ 2 := by
  constructor
  · refine runActs_calls_ge now P hdue l (raceInit store) ?_ ?_ ?_
    · rw [hl.1]; exact Or.inl rfl
    · rw [hl.2]; exact Or.inl rfl
    · refine ⟨?_, ?_, Or.inr (Or.inr (Or.inr ⟨hP, Or.inl hl.1⟩))⟩
      · intro h; cases h
      · intro h; cases h
  · have h := runActs_calls_le now P.id true l (raceInit store)
    rw [count_scanSend_of_merge hl.1, count_manSend_of_merge hl.2] at h
    simpa [raceInit] using h

/-- C1 witness: the sequential interleaving (scan completes, then the
manual dispatch runs) on a one-post store — within the proved bounds. -/
theorem c1_race_bounds_witness :
    1 ≤ (runActs exNow exDue.id true (scanProg ++ manProg)
      (raceInit [exDue])).calls ∧
    (runActs exNow exDue.id true (scanProg ++ manProg)
      (raceInit [exDue])).calls ≤ 2 :=
  c1_race_bounds exNow exDue [exDue] (scanProg ++ manProg)
    (by decide) (by decide) ⟨by decide, by decide⟩

end Apgram
